import Mathlib

/-!
# Insyd notification backend: fan-out, notification log and polling client

A shallow embedding of `src/server.js` (the Express handlers and the four
`notify*` helpers over the SQLite tables) and of the polling effect of
`src/App.jsx`, followed by the properties of the notification fan-out and
delivery protocol.

Modelling conventions.

* A table is the list of its rows in insertion order.  Row ids are `Nat`
  (SQLite rowids are 64-bit; the bound is never approached here).
* An id in a request is a natural number, sent as a JSON number or as a string
  of its digits.  Where the program only binds the value to a statement, the
  INTEGER affinity of the column makes SQLite read both as the same integer,
  and the value is that integer (a `Nat`, `0` standing for every falsy value
  that the `!x` guards reject).  Where the program also compares the value
  with `===`, the number and the string differ, and the value is a `JsId`.
* `AUTOINCREMENT` gives a new row the id one above the largest rowid that ever
  existed in the table.  No statement of the program deletes a row, so that
  is one above the largest id present (`nextId`).
* The `created_at` columns (wall-clock defaults) are never read or updated by
  the program and are left out.
* `String.prototype.slice(0, 60)` counts UTF-16 code units (`slice0`).
* A JavaScript function that may throw returns the store as it is when it
  completes, together with a `Completion`.
-/

namespace Insyd

/-! ## Tables -/

/-- Row of `users`. -/
structure User where
  id : Nat
  name : String
deriving DecidableEq, Repr

/-- Row of `follows`; the table is declared `UNIQUE(follower_id, followed_id)`. -/
structure Follow where
  id : Nat
  follower_id : Nat
  followed_id : Nat
deriving DecidableEq, Repr

/-- Row of `posts`; also the `post` object built by `POST /posts`. -/
structure Post where
  id : Nat
  user_id : Nat
  content : String
deriving DecidableEq, Repr

/-- Row of `likes`; the table is declared `UNIQUE(user_id, post_id)`. -/
structure Like where
  id : Nat
  user_id : Nat
  post_id : Nat
deriving DecidableEq, Repr

/-- Row of `comments`. -/
structure Comment where
  id : Nat
  user_id : Nat
  post_id : Nat
  content : String
deriving DecidableEq, Repr

/-- Row of `notifications`: `user_id` is the recipient, `actor_id` the user who
did the action, `read` the 0/1 column (default 0). -/
structure Notification where
  id : Nat
  user_id : Nat
  actor_id : Nat
  verb : String
  entity_type : String
  entity_id : Nat
  message : String
  read : Bool
deriving DecidableEq, Repr

/-- The database: one list of rows per table. -/
structure Store where
  users : List User
  follows : List Follow
  posts : List Post
  likes : List Like
  comments : List Comment
  notifications : List Notification
deriving DecidableEq, Repr

/-- The id `AUTOINCREMENT` assigns to the next row of a table whose rows have
the ids `ids`. -/
def nextId (ids : List Nat) : Nat :=
  ids.foldr max 0 + 1

/-- The characters of the first `n` UTF-16 code units of a text: a character
outside the basic plane takes two units, and when the cut falls inside one,
the unpaired half that is left, which is no character of its own, is written
as U+FFFD, the replacement character. -/
def sliceUnits : Nat → List Char → List Char
  | _, [] => []
  | n, c :: cs =>
    if n = 0 then []
    else if c.toNat < 65536 then c :: sliceUnits (n - 1) cs
    else if n = 1 then [Char.ofNat 65533]
    else c :: sliceUnits (n - 2) cs

/-- The JavaScript `s.slice(0, n)`. -/
def slice0 (s : String) (n : Nat) : String :=
  ⟨sliceUnits n s.data⟩

/-- An id as it arrives in a request body: the JSON number `n`, or a JSON
string that SQLite reads as the integer `n`. -/
inductive JsId where
  | num (n : Nat)
  | str (n : Nat)
deriving DecidableEq, Repr

/-- The integer SQLite compares with or stores in an INTEGER column when the
value is bound to a statement. -/
def JsId.toNat : JsId → Nat
  | .num n => n
  | .str n => n

/-- The JavaScript `!x`: of these values only the number 0 is falsy. -/
def JsId.falsy : JsId → Bool
  | .num n => n == 0
  | .str _ => false

/-- The database after `init()` on a fresh file: empty tables and the three
seeded users. -/
def init : Store where
  users := [⟨1, "Alice"⟩, ⟨2, "Bob"⟩, ⟨3, "Cara"⟩]
  follows := []
  posts := []
  likes := []
  comments := []
  notifications := []

/-! ## Fan-out helpers -/

/-- The named parameters bound by the prepared statement `insertNotification`. -/
structure NotificationParams where
  user_id : Nat
  actor_id : Nat
  verb : String
  entity_type : String
  entity_id : Nat
  message : String
deriving DecidableEq, Repr

/-- The prepared statement `insertNotification`, run once: one row appended,
with a fresh id and `read = 0`. -/
def insertNotification (s : Store) (p : NotificationParams) : Store :=
  { s with
    notifications := s.notifications ++
      [{ id := nextId (s.notifications.map (·.id))
         user_id := p.user_id
         actor_id := p.actor_id
         verb := p.verb
         entity_type := p.entity_type
         entity_id := p.entity_id
         message := p.message
         read := false }] }

/-- How a call of a JavaScript function ends. -/
inductive Completion where
  | returned
  | threw (e : String)
deriving DecidableEq, Repr

/-- The query `SELECT follower_id FROM follows WHERE followed_id = ?`. -/
def selectFollowers (s : Store) (followedId : Nat) : List Follow :=
  s.follows.filter (fun f => f.followed_id == followedId)

/-- The query `SELECT name FROM users WHERE id = ?` (`.get`: first row or
`undefined`). -/
def selectUser (s : Store) (id : Nat) : Option User :=
  s.users.find? (fun u => u.id == id)

/-- The query `SELECT p.id, p.user_id as author_id FROM posts p WHERE p.id = ?`. -/
def selectPost (s : Store) (postId : Nat) : Option Post :=
  s.posts.find? (fun p => p.id == postId)

/-- The function `notifyFollowersOnPost(post)`.  Reading `actor.name` of a
missing user throws before anything is written. -/
def notifyFollowersOnPost (s : Store) (post : Post) : Store × Completion :=
  let followers := selectFollowers s post.user_id
  match selectUser s post.user_id with
  | none => (s, .threw "TypeError: Cannot read properties of undefined (reading 'name')")
  | some actor =>
    let msgBase := actor.name ++ " posted: \"" ++ slice0 post.content 60 ++ "\""
    (followers.foldl (fun st fid => insertNotification st
        { user_id := fid.follower_id
          actor_id := post.user_id
          verb := "POSTED"
          entity_type := "post"
          entity_id := post.id
          message := msgBase }) s, .returned)

/-- The function `notifyAuthorOnLike(userId, postId)`.  The self test
`post.author_id === userId` compares the author, a number, with the value as
it arrived. -/
def notifyAuthorOnLike (s : Store) (userId : JsId) (postId : Nat) : Store × Completion :=
  match selectPost s postId with
  | none => (s, .returned)
  | some post =>
    if JsId.num post.user_id = userId then (s, .returned)
    else
      match selectUser s userId.toNat with
      | none => (s, .threw "TypeError: Cannot read properties of undefined (reading 'name')")
      | some actor =>
        (insertNotification s
          { user_id := post.user_id
            actor_id := userId.toNat
            verb := "LIKED"
            entity_type := "post"
            entity_id := postId
            message := actor.name ++ " liked your post" }, .returned)

/-- The function `notifyAuthorOnComment(userId, postId, content)`. -/
def notifyAuthorOnComment (s : Store) (userId : JsId) (postId : Nat) (content : String) :
    Store × Completion :=
  match selectPost s postId with
  | none => (s, .returned)
  | some post =>
    if JsId.num post.user_id = userId then (s, .returned)
    else
      match selectUser s userId.toNat with
      | none => (s, .threw "TypeError: Cannot read properties of undefined (reading 'name')")
      | some actor =>
        (insertNotification s
          { user_id := post.user_id
            actor_id := userId.toNat
            verb := "COMMENTED"
            entity_type := "comment"
            entity_id := postId
            message := actor.name ++ " commented: \"" ++ slice0 content 60 ++ "\"" }, .returned)

/-- The function `notifyAuthorOnDiscovery(viewerId, postId)`. -/
def notifyAuthorOnDiscovery (s : Store) (viewerId : JsId) (postId : Nat) : Store × Completion :=
  match selectPost s postId with
  | none => (s, .returned)
  | some post =>
    if JsId.num post.user_id = viewerId then (s, .returned)
    else
      match selectUser s viewerId.toNat with
      | none => (s, .threw "TypeError: Cannot read properties of undefined (reading 'name')")
      | some actor =>
        (insertNotification s
          { user_id := post.user_id
            actor_id := viewerId.toNat
            verb := "DISCOVERED"
            entity_type := "post"
            entity_id := postId
            message := actor.name ++ " discovered your post" }, .returned)

/-! ## Routes -/

/-- What a handler sends back. -/
inductive Body where
  | ok
  | error (msg : String)
  | user (id : Nat) (name : String)
  | post (p : Post)
  | id (n : Nat)
  | rows (l : List Notification)
  | uncaught (e : String)
deriving DecidableEq, Repr

/-- An HTTP response: status code and body.  An exception that leaves a
handler is answered by Express with status 500. -/
structure Response where
  status : Nat
  body : Body
deriving DecidableEq, Repr

/-- The route `POST /users`. -/
def postUsers (s : Store) (name : String) : Store × Response :=
  if name = "" then (s, ⟨400, .error "name required"⟩)
  else
    let id := nextId (s.users.map (·.id))
    ({ s with users := s.users ++ [⟨id, name⟩] }, ⟨200, .user id name⟩)

/-- The route `POST /follow`: the insert fails on the `UNIQUE` constraint when
the edge is already there. -/
def postFollow (s : Store) (followerId followedId : Nat) : Store × Response :=
  if followerId = 0 ∨ followedId = 0 then
    (s, ⟨400, .error "followerId & followedId required"⟩)
  else if s.follows.any (fun f => f.follower_id == followerId && f.followed_id == followedId) then
    (s, ⟨409, .error "already following or invalid ids"⟩)
  else
    ({ s with follows := s.follows ++
        [⟨nextId (s.follows.map (·.id)), followerId, followedId⟩] }, ⟨200, .ok⟩)

/-- The route `POST /posts`: the fan-out runs outside any `try`. -/
def postPosts (s : Store) (userId : Nat) (content : String) : Store × Response :=
  if userId = 0 ∨ content = "" then (s, ⟨400, .error "userId & content required"⟩)
  else
    let post : Post := ⟨nextId (s.posts.map (·.id)), userId, content⟩
    let s1 := { s with posts := s.posts ++ [post] }
    match notifyFollowersOnPost s1 post with
    | (s2, .returned) => (s2, ⟨200, .post post⟩)
    | (s2, .threw e) => (s2, ⟨500, .uncaught e⟩)

/-- The route `POST /likes`: insert and fan-out share one `try`. -/
def postLikes (s : Store) (userId : JsId) (postId : Nat) : Store × Response :=
  if userId.falsy = true ∨ postId = 0 then (s, ⟨400, .error "userId & postId required"⟩)
  else if s.likes.any (fun l => l.user_id == userId.toNat && l.post_id == postId) then
    (s, ⟨409, .error "already liked or invalid ids"⟩)
  else
    let s1 := { s with
      likes := s.likes ++ [⟨nextId (s.likes.map (·.id)), userId.toNat, postId⟩] }
    match notifyAuthorOnLike s1 userId postId with
    | (s2, .returned) => (s2, ⟨200, .ok⟩)
    | (s2, .threw _) => (s2, ⟨409, .error "already liked or invalid ids"⟩)

/-- The route `POST /comments`. -/
def postComments (s : Store) (userId : JsId) (postId : Nat) (content : String) :
    Store × Response :=
  if userId.falsy = true ∨ postId = 0 ∨ content = "" then
    (s, ⟨400, .error "userId, postId & content required"⟩)
  else
    let id := nextId (s.comments.map (·.id))
    let s1 := { s with comments := s.comments ++ [⟨id, userId.toNat, postId, content⟩] }
    match notifyAuthorOnComment s1 userId postId content with
    | (s2, .returned) => (s2, ⟨200, .id id⟩)
    | (s2, .threw e) => (s2, ⟨500, .uncaught e⟩)

/-- The route `POST /discover`. -/
def postDiscover (s : Store) (viewerId : JsId) (postId : Nat) : Store × Response :=
  if viewerId.falsy = true ∨ postId = 0 then (s, ⟨400, .error "viewerId & postId required"⟩)
  else
    match notifyAuthorOnDiscovery s viewerId postId with
    | (s2, .returned) => (s2, ⟨200, .ok⟩)
    | (s2, .threw e) => (s2, ⟨500, .uncaught e⟩)

/-- The clause `ORDER BY id DESC`. -/
def orderByIdDesc (l : List Notification) : List Notification :=
  l.insertionSort (fun a b => b.id ≤ a.id)

/-- The route `GET /notifications`; `sinceId` is the query parameter, absent
or a number. -/
def getNotifications (s : Store) (userId : Nat) (sinceId : Option Nat) : Response :=
  if userId = 0 then ⟨400, .error "userId required"⟩
  else
    let sinceId := sinceId.getD 0
    let rows :=
      if sinceId ≠ 0 then
        orderByIdDesc (s.notifications.filter (fun n => n.user_id == userId && decide (sinceId < n.id)))
      else
        (orderByIdDesc (s.notifications.filter (fun n => n.user_id == userId))).take 50
    ⟨200, .rows rows⟩

/-- The statement `UPDATE notifications SET read = 1 WHERE user_id = ? AND id = ?`,
run once. -/
def mark (l : List Notification) (userId id : Nat) : List Notification :=
  l.map (fun n => if n.user_id = userId ∧ n.id = id then { n with read := true } else n)

/-- The route `POST /notifications/read`. -/
def postNotificationsRead (s : Store) (userId : Nat) (ids : List Nat) : Store × Response :=
  if userId = 0 then (s, ⟨400, .error "userId & ids[] required"⟩)
  else
    ({ s with notifications := ids.foldl (fun l id => mark l userId id) s.notifications },
      ⟨200, .ok⟩)

/-! ## The polling client of `App.jsx` -/

/-- The client state the polling effect works on: `selectedUser`, `notifs` and
`latestIdRef.current`. -/
structure Client where
  selectedUser : Nat
  notifs : List Notification
  latestId : Nat
deriving DecidableEq, Repr

/-- The effect body run when `selectedUser` is set: watermark 0, empty list. -/
def Client.start (selectedUser : Nat) : Client :=
  ⟨selectedUser, [], 0⟩

/-- One run of `poll`: a non-empty answer is put in front of the list and the
watermark raised to the largest id seen; a failed request is ignored. -/
def poll (s : Store) (c : Client) : Client :=
  let res := getNotifications s c.selectedUser
    (if c.latestId ≠ 0 then some c.latestId else none)
  match res with
  | ⟨200, .rows data⟩ =>
    if data.length ≠ 0 then
      { c with
        notifs := data ++ c.notifs
        latestId := (data.map (·.id)).foldl max c.latestId }
    else c
  | _ => c

/-! ## Specification vocabulary -/

/-- The follower set of a user: everyone with a follow edge to `a`. -/
def followersOf (s : Store) (a : Nat) : Finset Nat :=
  ((s.follows.filter (fun f => f.followed_id == a)).map (·.follower_id)).toFinset

/-- The constraint `UNIQUE(follower_id, followed_id)` of `follows`. -/
def FollowsUnique (s : Store) : Prop :=
  s.follows.Pairwise (fun f g => ¬ (f.follower_id = g.follower_id ∧ f.followed_id = g.followed_id))

instance (s : Store) : Decidable (FollowsUnique s) := by
  unfold FollowsUnique; infer_instance

/-- The constraint `PRIMARY KEY` of `posts.id`. -/
def PostsKeyed (s : Store) : Prop :=
  (s.posts.map (·.id)).Nodup

instance (s : Store) : Decidable (PostsKeyed s) := by
  unfold PostsKeyed; infer_instance

/-- The rows that `insertNotification`, run on each of `ps` in turn, gives the
ids `base`, `base + 1`, ... -/
def stamp (base : Nat) : List NotificationParams → List Notification
  | [] => []
  | p :: ps =>
    { id := base, user_id := p.user_id, actor_id := p.actor_id, verb := p.verb,
      entity_type := p.entity_type, entity_id := p.entity_id, message := p.message,
      read := false } :: stamp (base + 1) ps

/-- What the specification asks of a fan-out to the author of a post, for the
outcome `r` of the call with acting user `userId` on post `postId`: nothing is
written when the post is missing or is the acting user's own, and otherwise
one row for the author, from the acting user, with verb `verb`. -/
def AuthorNotified (s : Store) (userId postId : Nat) (verb : String)
    (r : Store × Completion) : Prop :=
  ((∀ p ∈ s.posts, p.id ≠ postId) → r = (s, .returned)) ∧
  (∀ p ∈ s.posts, p.id = postId → p.user_id = userId → r = (s, .returned)) ∧
  (∀ p ∈ s.posts, p.id = postId → p.user_id ≠ userId →
    ∃ n : Notification,
      r = ({ s with notifications := s.notifications ++ [n] }, .returned) ∧
      n.user_id = p.user_id ∧ n.actor_id = userId ∧ n.verb = verb)

/-- The seeded database in which Bob and Cara follow Alice. -/
def demoFollowed : Store :=
  { init with follows := [⟨1, 2, 1⟩, ⟨2, 3, 1⟩] }

/-- The seeded database with one post of Alice. -/
def demoPosted : Store :=
  { init with posts := [⟨1, 1, "hello"⟩] }

/-- The constraint `PRIMARY KEY` of `notifications.id`. -/
def NotifsKeyed (s : Store) : Prop :=
  (s.notifications.map (·.id)).Nodup

instance (s : Store) : Decidable (NotifsKeyed s) := by
  unfold NotifsKeyed; infer_instance

/-- Two rows that agree on every column but `read`. -/
def SameButRead (a b : Notification) : Prop :=
  a.id = b.id ∧ a.user_id = b.user_id ∧ a.actor_id = b.actor_id ∧ a.verb = b.verb ∧
    a.entity_type = b.entity_type ∧ a.entity_id = b.entity_id ∧ a.message = b.message

/-- The log `new` continues the log `old` append-only: the old rows are all
still there, in place and equal up to `read`, followed by added rows whose ids
lie above every old id and increase strictly in append order. -/
def AppendOnly (old new : List Notification) : Prop :=
  ∃ kept added : List Notification,
    new = kept ++ added ∧
    List.Forall₂ SameButRead old kept ∧
    (∀ n ∈ added, ∀ m ∈ old, m.id < n.id) ∧
    (added.map (·.id)).Pairwise (· < ·)

/-- The row that a mark-read request of recipient `r` for `ids` leaves in
place of the row `n`. -/
def markedRow (r : Nat) (ids : List Nat) (n : Notification) : Notification :=
  { n with read := n.read || (decide (n.user_id = r) && decide (n.id ∈ ids)) }

/-- The requests that change the store through the routes other than
mark-read: the four actions that trigger a fan-out, and the user and follow
creations they depend on. -/
inductive Action where
  | createUser (name : String)
  | follow (followerId followedId : Nat)
  | publish (userId : Nat) (content : String)
  | like (userId : JsId) (postId : Nat)
  | comment (userId : JsId) (postId : Nat) (content : String)
  | discover (viewerId : JsId) (postId : Nat)
deriving DecidableEq, Repr

/-- The store after the handler of a request has run. -/
def Action.run (a : Action) (s : Store) : Store :=
  match a with
  | .createUser name => (postUsers s name).1
  | .follow followerId followedId => (postFollow s followerId followedId).1
  | .publish userId content => (postPosts s userId content).1
  | .like userId postId => (postLikes s userId postId).1
  | .comment userId postId content => (postComments s userId postId content).1
  | .discover viewerId postId => (postDiscover s viewerId postId).1

/-- What happens next in a system of the server and one client: the client
polls, or the server handles a request. -/
inductive Event where
  | poll
  | act (a : Action)
deriving DecidableEq, Repr

/-- One event on the pair of the server's store and the client's state. -/
def step (w : Store × Client) : Event → Store × Client
  | .poll => (w.1, poll w.1 w.2)
  | .act a => (a.run w.1, w.2)

/-- A sequence of events, in order. -/
def run (w : Store × Client) (es : List Event) : Store × Client :=
  es.foldl step w

/-- The rows `GET /notifications` selects for the request that the client `c`
sends. -/
def answer (s : Store) (c : Client) : List Notification :=
  if c.latestId ≠ 0 then
    orderByIdDesc (s.notifications.filter
      (fun n => n.user_id == c.selectedUser && decide (c.latestId < n.id)))
  else
    (orderByIdDesc (s.notifications.filter (fun n => n.user_id == c.selectedUser))).take 50

/-- The invariant of the system of the server and a client of recipient `r`. -/
structure Inv (r : Nat) (w : Store × Client) : Prop where
  user : w.2.selectedUser = r
  keyed : NotifsKeyed w.1
  pos : ∀ n ∈ w.1.notifications, 0 < n.id
  desc : w.2.notifs.Pairwise (fun a b => b.id < a.id)
  held : ∀ n ∈ w.2.notifs, n ∈ w.1.notifications ∧ n.user_id = r ∧ n.id ≤ w.2.latestId
  full : ∀ n ∈ w.1.notifications, n.user_id = r → n.id ≤ w.2.latestId →
    (∃ m ∈ w.2.notifs, m.id ≤ n.id) → n ∈ w.2.notifs
  top : w.2.latestId = 0 ∨ ∃ m ∈ w.2.notifs, m.id = w.2.latestId

/-- A run in which the client polls before and after each of two posts of
Alice. -/
def demoEvents : List Event :=
  [.poll, .act (.publish 1 "a"), .poll, .act (.publish 1 "b"), .poll]

/-- The constraints of the schema that the properties below rely on: the
unique follow edges, the primary keys of `posts` and `notifications`, and
notification ids counted from 1. -/
def WellFormed (s : Store) : Prop :=
  FollowsUnique s ∧ PostsKeyed s ∧ NotifsKeyed s ∧ ∀ n ∈ s.notifications, 0 < n.id

/-! ## Lemmas on ids and inserts -/

theorem foldr_max_init (ids : List Nat) (b : Nat) :
    ids.foldr max b = max (ids.foldr max 0) b := by
  induction ids with
  | nil => simp
  | cons a t ih => simp only [List.foldr_cons]; rw [ih]; omega

theorem le_foldr_max {ids : List Nat} {i : Nat} (h : i ∈ ids) : i ≤ ids.foldr max 0 := by
  induction ids with
  | nil => cases h
  | cons a t ih =>
    simp only [List.foldr_cons]
    rcases List.mem_cons.1 h with rfl | h
    · exact Nat.le_max_left _ _
    · exact Nat.le_trans (ih h) (Nat.le_max_right _ _)

theorem lt_nextId {ids : List Nat} {i : Nat} (h : i ∈ ids) : i < nextId ids :=
  Nat.lt_succ_of_le (le_foldr_max h)

theorem nextId_pos (ids : List Nat) : 0 < nextId ids :=
  Nat.succ_pos _

theorem nextId_append_nextId (ids : List Nat) :
    nextId (ids ++ [nextId ids]) = nextId ids + 1 := by
  unfold nextId
  rw [List.foldr_append, foldr_max_init]
  simp only [List.foldr_cons, List.foldr_nil]
  omega

theorem foldl_insertNotification (ps : List NotificationParams) (s : Store) :
    ps.foldl insertNotification s =
      { s with notifications :=
          s.notifications ++ stamp (nextId (s.notifications.map (·.id))) ps } := by
  induction ps generalizing s with
  | nil => simp [stamp]
  | cons p ps ih =>
    rw [List.foldl_cons, ih]
    simp only [insertNotification, List.map_append, List.map_cons, List.map_nil,
      nextId_append_nextId, stamp, List.append_assoc, List.singleton_append]

theorem length_stamp (base : Nat) (ps : List NotificationParams) :
    (stamp base ps).length = ps.length := by
  induction ps generalizing base with
  | nil => rfl
  | cons p ps ih => simp [stamp, ih]

theorem map_user_id_stamp (base : Nat) (ps : List NotificationParams) :
    (stamp base ps).map (·.user_id) = ps.map (·.user_id) := by
  induction ps generalizing base with
  | nil => rfl
  | cons p ps ih => simp [stamp, ih]

theorem map_id_stamp (base : Nat) (ps : List NotificationParams) :
    (stamp base ps).map (·.id) = List.range' base ps.length := by
  induction ps generalizing base with
  | nil => rfl
  | cons p ps ih => simp [stamp, ih, List.range'_succ]

theorem mem_stamp {base : Nat} {ps : List NotificationParams} {n : Notification}
    (h : n ∈ stamp base ps) :
    n.read = false ∧ base ≤ n.id ∧
      ∃ p ∈ ps, n.user_id = p.user_id ∧ n.actor_id = p.actor_id ∧ n.verb = p.verb ∧
        n.entity_type = p.entity_type ∧ n.entity_id = p.entity_id ∧ n.message = p.message := by
  induction ps generalizing base with
  | nil => cases h
  | cons p ps ih =>
    rcases List.mem_cons.1 h with rfl | h
    · exact ⟨rfl, Nat.le_refl _, p, List.mem_cons_self _ _, rfl, rfl, rfl, rfl, rfl, rfl⟩
    · obtain ⟨h1, h2, q, hq, h3⟩ := ih h
      exact ⟨h1, by omega, q, List.mem_cons_of_mem _ hq, h3⟩

theorem selectUser_isSome {s : Store} {a : Nat} (h : ∃ u ∈ s.users, u.id = a) :
    ∃ actor, selectUser s a = some actor := by
  obtain ⟨u, hu, rfl⟩ := h
  cases hf : selectUser s u.id with
  | some actor => exact ⟨actor, rfl⟩
  | none =>
    have := List.find?_eq_none.1 hf u hu
    simp at this

theorem selectPost_eq_none {s : Store} {postId : Nat} (h : ∀ p ∈ s.posts, p.id ≠ postId) :
    selectPost s postId = none := by
  unfold selectPost
  rw [List.find?_eq_none]
  intro p hp
  simpa using h p hp

theorem find?_keyed {posts : List Post} {p : Post} (hk : (posts.map (·.id)).Nodup)
    (hp : p ∈ posts) : posts.find? (fun q => q.id == p.id) = some p := by
  induction posts with
  | nil => cases hp
  | cons q t ih =>
    simp only [List.map_cons, List.nodup_cons] at hk
    rcases List.mem_cons.1 hp with rfl | hp
    · simp
    · have hne : q.id ≠ p.id := fun e => hk.1 (e ▸ List.mem_map_of_mem _ hp)
      rw [List.find?_cons_of_neg _ (by simpa using hne)]
      exact ih hk.2 hp

theorem selectPost_eq_some {s : Store} {p : Post} (hk : PostsKeyed s) (hp : p ∈ s.posts) :
    selectPost s p.id = some p :=
  find?_keyed hk hp

/-! ## Fan-out on publish -/

theorem mem_followersOf {s : Store} {a u : Nat} :
    u ∈ followersOf s a ↔ ∃ f ∈ s.follows, f.follower_id = u ∧ f.followed_id = a := by
  simp only [followersOf, List.mem_toFinset, List.mem_map, List.mem_filter, beq_iff_eq]
  constructor
  · rintro ⟨f, ⟨hf, ha⟩, hu⟩; exact ⟨f, hf, hu, ha⟩
  · rintro ⟨f, hf, hu, ha⟩; exact ⟨f, ⟨hf, ha⟩, hu⟩

theorem nodup_selectFollowers {s : Store} (hU : FollowsUnique s) (a : Nat) :
    ((selectFollowers s a).map (·.follower_id)).Nodup := by
  unfold selectFollowers
  rw [List.Nodup, List.pairwise_map]
  refine List.Pairwise.imp_of_mem ?_ (List.Pairwise.filter _ hU)
  intro f g hf hg hfg h
  simp only [List.mem_filter, beq_iff_eq] at hf hg
  exact hfg ⟨h, hf.2.trans hg.2.symm⟩

theorem notifyFollowersOnPost_eq {s : Store} {post : Post} {actor : User}
    (h : selectUser s post.user_id = some actor) :
    notifyFollowersOnPost s post =
      ({ s with notifications := s.notifications ++
          (stamp (nextId (s.notifications.map (·.id)))
            ((selectFollowers s post.user_id).map (fun fid =>
              { user_id := fid.follower_id
                actor_id := post.user_id
                verb := "POSTED"
                entity_type := "post"
                entity_id := post.id
                message := actor.name ++ " posted: \"" ++ slice0 post.content 60 ++ "\"" }))) },
        .returned) := by
  simp only [notifyFollowersOnPost, h]
  rw [← foldl_insertNotification, List.foldl_map]

/-- C1: when the author has a user record, `notifyFollowersOnPost` returns and
appends exactly one row per member of the author's follower set: as many rows
as the set has members, pairwise distinct recipients, each follower receiving
exactly one, every row addressed to a follower with the author as actor and the
post as subject; nothing else in the store changes. -/
theorem notifyFollowersOnPost_one_per_follower (s : Store) (post : Post)
    (hU : FollowsUnique s) (hA : ∃ u ∈ s.users, u.id = post.user_id) :
    ∃ added : List Notification,
      notifyFollowersOnPost s post =
        ({ s with notifications := s.notifications ++ added }, .returned) ∧
      added.length = (followersOf s post.user_id).card ∧
      (added.map (·.user_id)).Nodup ∧
      (∀ u ∈ followersOf s post.user_id, (added.map (·.user_id)).count u = 1) ∧
      (∀ n ∈ added, n.user_id ∈ followersOf s post.user_id ∧ n.actor_id = post.user_id ∧
        n.entity_type = "post" ∧ n.entity_id = post.id) := by
  obtain ⟨actor, hactor⟩ := selectUser_isSome hA
  have hnd := nodup_selectFollowers hU post.user_id
  have hrec : ∀ base ps, ((stamp base ((selectFollowers s post.user_id).map ps)).map (·.user_id))
      = ((selectFollowers s post.user_id).map (fun f => (ps f).user_id)) := by
    intro base ps
    rw [map_user_id_stamp, List.map_map]; rfl
  refine ⟨_, notifyFollowersOnPost_eq hactor, ?_, ?_, ?_, ?_⟩
  · rw [length_stamp, List.length_map]
    exact ((List.toFinset_card_of_nodup hnd).trans (List.length_map _ _)).symm
  · rw [hrec]; exact hnd
  · intro u hu
    rw [hrec]
    refine List.count_eq_one_of_mem hnd ?_
    simpa [followersOf, selectFollowers] using hu
  · intro n hn
    obtain ⟨-, -, p, hp, h1, h2, -, h4, h5, -⟩ := mem_stamp hn
    obtain ⟨f, hf, rfl⟩ := List.mem_map.1 hp
    refine ⟨?_, h2, h4, h5⟩
    rw [h1, mem_followersOf]
    simp only [selectFollowers, List.mem_filter, beq_iff_eq] at hf
    exact ⟨f, hf.1, rfl, hf.2⟩

/-- Witness of C1: Alice, followed by Bob and Cara, publishes a post. -/
theorem notifyFollowersOnPost_one_per_follower_witness :
    FollowsUnique demoFollowed ∧
    ∃ added : List Notification,
      notifyFollowersOnPost demoFollowed ⟨1, 1, "hello"⟩ =
        ({ demoFollowed with notifications := demoFollowed.notifications ++ added }, .returned) ∧
      added.length = (followersOf demoFollowed 1).card ∧
      (added.map (·.user_id)).Nodup ∧
      (∀ u ∈ followersOf demoFollowed 1, (added.map (·.user_id)).count u = 1) ∧
      (∀ n ∈ added, n.user_id ∈ followersOf demoFollowed 1 ∧ n.actor_id = 1 ∧
        n.entity_type = "post" ∧ n.entity_id = 1) :=
  ⟨by decide, notifyFollowersOnPost_one_per_follower demoFollowed ⟨1, 1, "hello"⟩ (by decide)
    ⟨⟨1, "Alice"⟩, by decide, rfl⟩⟩

/-- C2: a user who follows themself is notified of their own post.  The edge
(1, 1) is accepted by `POST /follow`, and the publish of user 1 then writes a
row whose recipient and actor are both user 1. -/
theorem publish_notifies_author_who_follows_themself :
    (postFollow init 1 1).2 = ⟨200, .ok⟩ ∧
    (postPosts (postFollow init 1 1).1 1 "hello").2.status = 200 ∧
    (postPosts (postFollow init 1 1).1 1 "hello").1.notifications =
      [⟨1, 1, 1, "POSTED", "post", 1, "Alice posted: \"hello\"", false⟩] ∧
    (notifyFollowersOnPost (postFollow init 1 1).1 ⟨1, 1, "hello"⟩).1.notifications.map
      (fun n => (n.user_id, n.actor_id)) = [(1, 1)] := by
  decide

/-! ## Fan-out to the author of a post -/

/-- The three helpers on an acting user whose id arrives as a JSON number and
who has a user record: if the post does not exist or is the acting user's own,
the call returns and leaves the store as it is; otherwise it returns having
appended exactly one row, whose recipient is the author of the post and whose
actor is the acting user, with verb LIKED, COMMENTED and DISCOVERED
respectively. -/
theorem notifyAuthor_of_number (s : Store) (userId postId : Nat) (content : String)
    (hK : PostsKeyed s) (hA : ∃ u ∈ s.users, u.id = userId) :
    AuthorNotified s userId postId "LIKED" (notifyAuthorOnLike s (.num userId) postId) ∧
    AuthorNotified s userId postId "COMMENTED"
      (notifyAuthorOnComment s (.num userId) postId content) ∧
    AuthorNotified s userId postId "DISCOVERED"
      (notifyAuthorOnDiscovery s (.num userId) postId) := by
  obtain ⟨actor, hactor⟩ := selectUser_isSome hA
  refine ⟨⟨?_, ?_, ?_⟩, ⟨?_, ?_, ?_⟩, ⟨?_, ?_, ?_⟩⟩
  all_goals first
    | (intro hno
       simp only [notifyAuthorOnLike, notifyAuthorOnComment, notifyAuthorOnDiscovery,
         selectPost_eq_none hno])
    | (intro p hp hid hother
       subst hid
       simp only [notifyAuthorOnLike, notifyAuthorOnComment, notifyAuthorOnDiscovery,
         selectPost_eq_some hK hp, JsId.num.injEq, JsId.toNat, hother, if_false, hactor,
         insertNotification]
       exact ⟨_, rfl, rfl, rfl, rfl⟩)
    | (intro p hp hid hself
       subst hid
       simp only [notifyAuthorOnLike, notifyAuthorOnComment, notifyAuthorOnDiscovery,
         selectPost_eq_some hK hp, JsId.num.injEq, hself, if_true])

/-- C3: the author of a post is notified of their own like, comment and
discovery when their id arrives as a JSON string.  On the seeded database with
post 1 of user 1, the requests of user "1" on post 1 are answered 200 and each
writes a row whose recipient and actor are both user 1, while the same
requests with the number 1 write nothing. -/
theorem self_action_with_string_id_notifies_author :
    (postLikes demoPosted (.str 1) 1).2 = ⟨200, .ok⟩ ∧
    (postLikes demoPosted (.str 1) 1).1.notifications =
      [⟨1, 1, 1, "LIKED", "post", 1, "Alice liked your post", false⟩] ∧
    (postComments demoPosted (.str 1) 1 "nice").2.status = 200 ∧
    (postComments demoPosted (.str 1) 1 "nice").1.notifications =
      [⟨1, 1, 1, "COMMENTED", "comment", 1, "Alice commented: \"nice\"", false⟩] ∧
    (postDiscover demoPosted (.str 1) 1).2 = ⟨200, .ok⟩ ∧
    (postDiscover demoPosted (.str 1) 1).1.notifications =
      [⟨1, 1, 1, "DISCOVERED", "post", 1, "Alice discovered your post", false⟩] ∧
    (notifyAuthorOnLike demoPosted (.str 1) 1).2 = .returned ∧
    (notifyAuthorOnComment demoPosted (.str 1) 1 "nice").2 = .returned ∧
    (notifyAuthorOnDiscovery demoPosted (.str 1) 1).2 = .returned ∧
    (postLikes demoPosted (.num 1) 1).1.notifications = [] ∧
    (postComments demoPosted (.num 1) 1 "nice").1.notifications = [] ∧
    (postDiscover demoPosted (.num 1) 1).1.notifications = [] := by
  decide

/-! ## Shape of what a fan-out writes -/

theorem with_notifications_append_nil (s : Store) :
    ({ s with notifications := s.notifications ++ stamp (nextId (s.notifications.map (·.id))) [] }
      : Store) = s := by
  cases s; simp [stamp]

theorem insertNotification_eq (s : Store) (p : NotificationParams) :
    insertNotification s p =
      { s with notifications :=
          s.notifications ++ stamp (nextId (s.notifications.map (·.id))) [p] } :=
  foldl_insertNotification [p] s

theorem notifyFollowersOnPost_writes (s : Store) (post : Post) :
    ∃ ps : List NotificationParams,
      (notifyFollowersOnPost s post).1 =
        { s with notifications :=
            s.notifications ++ stamp (nextId (s.notifications.map (·.id))) ps } ∧
      ∀ p ∈ ps, p.verb = "POSTED" := by
  cases h : selectUser s post.user_id with
  | none =>
    refine ⟨[], ?_, by simp⟩
    rw [with_notifications_append_nil]
    simp only [notifyFollowersOnPost, h]
  | some actor =>
    refine ⟨_, by rw [notifyFollowersOnPost_eq h], ?_⟩
    intro p hp
    obtain ⟨f, -, rfl⟩ := List.mem_map.1 hp
    rfl

theorem notifyAuthorOnLike_writes (s : Store) (userId : JsId) (postId : Nat) :
    ∃ ps : List NotificationParams,
      (notifyAuthorOnLike s userId postId).1 =
        { s with notifications :=
            s.notifications ++ stamp (nextId (s.notifications.map (·.id))) ps } ∧
      ∀ p ∈ ps, p.verb = "LIKED" := by
  unfold notifyAuthorOnLike
  split
  · exact ⟨[], (with_notifications_append_nil s).symm, by simp⟩
  · split
    · exact ⟨[], (with_notifications_append_nil s).symm, by simp⟩
    · split
      · exact ⟨[], (with_notifications_append_nil s).symm, by simp⟩
      · exact ⟨[_], insertNotification_eq s _, by simp⟩

theorem notifyAuthorOnComment_writes (s : Store) (userId : JsId) (postId : Nat)
    (content : String) :
    ∃ ps : List NotificationParams,
      (notifyAuthorOnComment s userId postId content).1 =
        { s with notifications :=
            s.notifications ++ stamp (nextId (s.notifications.map (·.id))) ps } ∧
      ∀ p ∈ ps, p.verb = "COMMENTED" := by
  unfold notifyAuthorOnComment
  split
  · exact ⟨[], (with_notifications_append_nil s).symm, by simp⟩
  · split
    · exact ⟨[], (with_notifications_append_nil s).symm, by simp⟩
    · split
      · exact ⟨[], (with_notifications_append_nil s).symm, by simp⟩
      · exact ⟨[_], insertNotification_eq s _, by simp⟩

theorem notifyAuthorOnDiscovery_writes (s : Store) (viewerId : JsId) (postId : Nat) :
    ∃ ps : List NotificationParams,
      (notifyAuthorOnDiscovery s viewerId postId).1 =
        { s with notifications :=
            s.notifications ++ stamp (nextId (s.notifications.map (·.id))) ps } ∧
      ∀ p ∈ ps, p.verb = "DISCOVERED" := by
  unfold notifyAuthorOnDiscovery
  split
  · exact ⟨[], (with_notifications_append_nil s).symm, by simp⟩
  · split
    · exact ⟨[], (with_notifications_append_nil s).symm, by simp⟩
    · split
      · exact ⟨[], (with_notifications_append_nil s).symm, by simp⟩
      · exact ⟨[_], insertNotification_eq s _, by simp⟩

theorem verb_of_mem_stamp {base : Nat} {ps : List NotificationParams} {v : String}
    (hv : ∀ p ∈ ps, p.verb = v) {n : Notification} (hn : n ∈ stamp base ps) : n.verb = v := by
  obtain ⟨-, -, p, hp, -, -, h, -⟩ := mem_stamp hn
  exact h.trans (hv p hp)

/-! ## A missing user record -/

/-- C7: a fan-out whose acting user has no user record throws instead of
degrading to zero notifications.  On the seeded database (users 1 to 3), a
publish by user 99 makes `notifyFollowersOnPost` throw and `POST /posts`
answer 500; a like, comment or discovery by user 99 on the post of user 1
makes the helper throw, and the handlers answer 409, 500 and 500. -/
theorem fanOut_throws_when_acting_user_missing :
    (notifyFollowersOnPost init ⟨1, 99, "hi"⟩).2 ≠ .returned ∧
    (postPosts init 99 "hi").2.status = 500 ∧
    (notifyAuthorOnLike demoPosted (.num 99) 1).2 ≠ .returned ∧
    (postLikes demoPosted (.num 99) 1).2.status = 409 ∧
    (notifyAuthorOnComment demoPosted (.num 99) 1 "nice").2 ≠ .returned ∧
    (postComments demoPosted (.num 99) 1 "nice").2.status = 500 ∧
    (notifyAuthorOnDiscovery demoPosted (.num 99) 1).2 ≠ .returned ∧
    (postDiscover demoPosted (.num 99) 1).2.status = 500 := by
  decide

/-! ## Verbs -/

/-- C9, as stated, fails: the rows written for a publish carry the verb
POSTED, which is not one of PUBLISHED, LIKED, COMMENTED, DISCOVERED. -/
theorem publish_verb_is_not_PUBLISHED :
    ¬ ∀ n ∈ (notifyFollowersOnPost demoFollowed ⟨1, 1, "hello"⟩).1.notifications,
        n.verb ∈ ["PUBLISHED", "LIKED", "COMMENTED", "DISCOVERED"] := by
  decide

/-- C9, amended: every row written by a fan-out has a verb among POSTED,
LIKED, COMMENTED and DISCOVERED, and every row written by
`notifyFollowersOnPost` has the verb POSTED. -/
theorem fanOut_verbs (s : Store) (post : Post) (userId : JsId) (postId : Nat)
    (content : String) :
    (∃ added, (notifyFollowersOnPost s post).1.notifications = s.notifications ++ added ∧
      ∀ n ∈ added, n.verb = "POSTED") ∧
    (∃ added, (notifyAuthorOnLike s userId postId).1.notifications = s.notifications ++ added ∧
      ∀ n ∈ added, n.verb ∈ ["POSTED", "LIKED", "COMMENTED", "DISCOVERED"]) ∧
    (∃ added, (notifyAuthorOnComment s userId postId content).1.notifications =
        s.notifications ++ added ∧
      ∀ n ∈ added, n.verb ∈ ["POSTED", "LIKED", "COMMENTED", "DISCOVERED"]) ∧
    (∃ added, (notifyAuthorOnDiscovery s userId postId).1.notifications =
        s.notifications ++ added ∧
      ∀ n ∈ added, n.verb ∈ ["POSTED", "LIKED", "COMMENTED", "DISCOVERED"]) := by
  obtain ⟨ps1, h1, v1⟩ := notifyFollowersOnPost_writes s post
  obtain ⟨ps2, h2, v2⟩ := notifyAuthorOnLike_writes s userId postId
  obtain ⟨ps3, h3, v3⟩ := notifyAuthorOnComment_writes s userId postId content
  obtain ⟨ps4, h4, v4⟩ := notifyAuthorOnDiscovery_writes s userId postId
  refine ⟨⟨_, by rw [h1], fun n hn => verb_of_mem_stamp v1 hn⟩,
    ⟨_, by rw [h2], fun n hn => ?_⟩, ⟨_, by rw [h3], fun n hn => ?_⟩,
    ⟨_, by rw [h4], fun n hn => ?_⟩⟩
  · rw [verb_of_mem_stamp v2 hn]; decide
  · rw [verb_of_mem_stamp v3 hn]; decide
  · rw [verb_of_mem_stamp v4 hn]; decide

/-! ## Marking rows read -/

theorem markedRow_nil (r : Nat) (n : Notification) : markedRow r [] n = n := by
  cases n; simp [markedRow]

theorem markedRow_cons (r id : Nat) (ids : List Nat) (n : Notification) :
    markedRow r ids (if n.user_id = r ∧ n.id = id then { n with read := true } else n) =
      markedRow r (id :: ids) n := by
  cases n with
  | mk nid nuser nactor nverb ntype nent nmsg nread =>
    by_cases hu : nuser = r <;> by_cases hi : nid = id <;>
      simp [markedRow, hu, hi, List.mem_cons]

theorem foldl_mark (r : Nat) (ids : List Nat) (l : List Notification) :
    ids.foldl (fun l id => mark l r id) l = l.map (markedRow r ids) := by
  induction ids generalizing l with
  | nil =>
    simp only [List.foldl_nil]
    rw [List.map_congr_left (fun n _ => markedRow_nil r n)]
    simp
  | cons id ids ih =>
    rw [List.foldl_cons, ih, mark, List.map_map]
    exact List.map_congr_left (fun n _ => markedRow_cons r id ids n)

theorem sameButRead_markedRow (r : Nat) (ids : List Nat) (n : Notification) :
    SameButRead n (markedRow r ids n) :=
  ⟨rfl, rfl, rfl, rfl, rfl, rfl, rfl⟩

theorem forall₂_map_self {α : Type} {R : α → α → Prop} (f : α → α) (l : List α)
    (h : ∀ a ∈ l, R a (f a)) : List.Forall₂ R l (l.map f) := by
  induction l with
  | nil => exact List.Forall₂.nil
  | cons a t ih =>
    exact List.Forall₂.cons (h a (List.mem_cons_self _ _))
      (ih (fun b hb => h b (List.mem_cons_of_mem _ hb)))

/-- C6: `POST /notifications/read` for recipient `r` and `ids` answers ok and
leaves every table but the log as it is; the new log pairs off with the old
one row by row, each new row equal to the old one on every column but `read`,
read exactly when the old row was read or has its id in `ids` and recipient
`r`, and identical to the old row when its recipient is not `r`. -/
theorem postNotificationsRead_marks_exactly (s : Store) (r : Nat) (ids : List Nat)
    (hr : r ≠ 0) :
    ∃ log : List Notification,
      postNotificationsRead s r ids = ({ s with notifications := log }, ⟨200, .ok⟩) ∧
      List.Forall₂
        (fun old new =>
          SameButRead old new ∧
          (new.read = true ↔ old.read = true ∨ (old.id ∈ ids ∧ old.user_id = r)) ∧
          (old.user_id ≠ r → new = old))
        s.notifications log := by
  refine ⟨s.notifications.map (markedRow r ids), ?_, ?_⟩
  · simp only [postNotificationsRead, hr, if_false, foldl_mark]
  · refine forall₂_map_self _ _ (fun n _ => ⟨sameButRead_markedRow r ids n, ?_, ?_⟩)
    · simp only [markedRow, Bool.or_eq_true, Bool.and_eq_true, decide_eq_true_eq]
      tauto
    · intro hne
      cases n
      simp_all [markedRow]

/-- Witness of C6: user 2 acknowledges ids 1 and 2, of which only 1 is theirs. -/
theorem postNotificationsRead_marks_exactly_witness :
    ∃ log : List Notification,
      postNotificationsRead (notifyFollowersOnPost demoFollowed ⟨1, 1, "hello"⟩).1 2 [1, 2] =
        ({ (notifyFollowersOnPost demoFollowed ⟨1, 1, "hello"⟩).1 with notifications := log },
          ⟨200, .ok⟩) ∧
      List.Forall₂
        (fun old new =>
          SameButRead old new ∧
          (new.read = true ↔ old.read = true ∨ (old.id ∈ [1, 2] ∧ old.user_id = 2)) ∧
          (old.user_id ≠ 2 → new = old))
        (notifyFollowersOnPost demoFollowed ⟨1, 1, "hello"⟩).1.notifications log :=
  postNotificationsRead_marks_exactly _ 2 [1, 2] (by decide)

/-! ## The log is append-only -/

theorem sameButRead_refl (n : Notification) : SameButRead n n :=
  ⟨rfl, rfl, rfl, rfl, rfl, rfl, rfl⟩

theorem forall₂_sameButRead_refl (l : List Notification) : List.Forall₂ SameButRead l l := by
  simpa using forall₂_map_self (R := SameButRead) id l (fun n _ => sameButRead_refl n)

theorem pairwise_lt_range' (base len : Nat) : (List.range' base len).Pairwise (· < ·) := by
  induction len generalizing base with
  | zero => simp
  | succ k ih =>
    rw [List.range'_succ, List.pairwise_cons]
    refine ⟨fun b hb => ?_, ih (base + 1)⟩
    have := (List.mem_range'_1.1 hb).1
    omega

theorem appendOnly_stamp (s : Store) (ps : List NotificationParams) :
    AppendOnly s.notifications
      (s.notifications ++ stamp (nextId (s.notifications.map (·.id))) ps) := by
  refine ⟨s.notifications, _, rfl, forall₂_sameButRead_refl _, ?_, ?_⟩
  · intro n hn m hm
    have h1 := (mem_stamp hn).2.1
    have h2 : m.id < nextId (s.notifications.map (·.id)) :=
      lt_nextId (List.mem_map_of_mem (·.id) hm)
    omega
  · rw [map_id_stamp]
    exact pairwise_lt_range' _ _

/-- C8: across each of the four fan-out helpers and the mark-read route, the
log is append-only: every old row is still there, in place, with the same id
and the same columns except possibly `read`, and the rows added have ids above
every id that was in the log, strictly increasing in append order. -/
theorem log_append_only (s : Store) (post : Post) (userId : JsId) (postId : Nat)
    (content : String) (r : Nat) (ids : List Nat) :
    AppendOnly s.notifications (notifyFollowersOnPost s post).1.notifications ∧
    AppendOnly s.notifications (notifyAuthorOnLike s userId postId).1.notifications ∧
    AppendOnly s.notifications (notifyAuthorOnComment s userId postId content).1.notifications ∧
    AppendOnly s.notifications (notifyAuthorOnDiscovery s userId postId).1.notifications ∧
    AppendOnly s.notifications (postNotificationsRead s r ids).1.notifications := by
  obtain ⟨ps1, h1, -⟩ := notifyFollowersOnPost_writes s post
  obtain ⟨ps2, h2, -⟩ := notifyAuthorOnLike_writes s userId postId
  obtain ⟨ps3, h3, -⟩ := notifyAuthorOnComment_writes s userId postId content
  obtain ⟨ps4, h4, -⟩ := notifyAuthorOnDiscovery_writes s userId postId
  refine ⟨by rw [h1]; exact appendOnly_stamp s ps1, by rw [h2]; exact appendOnly_stamp s ps2,
    by rw [h3]; exact appendOnly_stamp s ps3, by rw [h4]; exact appendOnly_stamp s ps4, ?_⟩
  unfold postNotificationsRead
  split
  · exact ⟨_, [], (List.append_nil _).symm, forall₂_sameButRead_refl _, by simp, by simp⟩
  · refine ⟨_, [], (List.append_nil _).symm, ?_, by simp, by simp⟩
    simp only [foldl_mark]
    exact forall₂_map_self _ _ (fun n _ => sameButRead_markedRow r ids n)

/-! ## Reading the log -/

theorem orderByIdDesc_perm (l : List Notification) : (orderByIdDesc l).Perm l :=
  List.perm_insertionSort _ l

theorem mem_orderByIdDesc {l : List Notification} {n : Notification} :
    n ∈ orderByIdDesc l ↔ n ∈ l :=
  (orderByIdDesc_perm l).mem_iff

theorem orderByIdDesc_sorted (l : List Notification) :
    (orderByIdDesc l).Pairwise (fun a b => b.id ≤ a.id) := by
  haveI : IsTotal Notification (fun a b => b.id ≤ a.id) := ⟨fun a b => Nat.le_total b.id a.id⟩
  haveI : IsTrans Notification (fun a b => b.id ≤ a.id) :=
    ⟨fun _ _ _ hab hbc => Nat.le_trans hbc hab⟩
  exact List.sorted_insertionSort _ l

theorem orderByIdDesc_strict {l : List Notification} (h : (l.map (·.id)).Nodup) :
    (orderByIdDesc l).Pairwise (fun a b => b.id < a.id) := by
  have hn : ((orderByIdDesc l).map (·.id)).Nodup :=
    ((orderByIdDesc_perm l).map _).nodup_iff.2 h
  rw [List.Nodup, List.pairwise_map] at hn
  exact ((orderByIdDesc_sorted l).and hn).imp
    (fun h => Nat.lt_of_le_of_ne h.1 (Ne.symm h.2))

theorem nodup_filter_ids {l : List Notification} (h : (l.map (·.id)).Nodup)
    (p : Notification → Bool) : ((l.filter p).map (·.id)).Nodup :=
  h.sublist ((List.filter_sublist l).map _)

/-- C4: a delta fetch of recipient `r` with watermark `W > 0` answers with
exactly the rows of the log that belong to `r` and have an id above `W`: every
such row and no other, as many rows as the log has of them, ordered by id
strictly descending. -/
theorem getNotifications_delta (s : Store) (r W : Nat) (hr : r ≠ 0) (hW : 0 < W)
    (hK : NotifsKeyed s) :
    ∃ rows : List Notification,
      getNotifications s r (some W) = ⟨200, .rows rows⟩ ∧
      (∀ n, n ∈ rows ↔ n ∈ s.notifications ∧ n.user_id = r ∧ W < n.id) ∧
      rows.length = (s.notifications.filter (fun n => n.user_id = r ∧ W < n.id)).length ∧
      rows.Pairwise (fun a b => b.id < a.id) := by
  have hW0 : W ≠ 0 := Nat.pos_iff_ne_zero.1 hW
  refine ⟨orderByIdDesc (s.notifications.filter
    (fun n => n.user_id == r && decide (W < n.id))), ?_, ?_, ?_, ?_⟩
  · simp only [getNotifications, hr, if_false, Option.getD_some, ne_eq, hW0, not_false_eq_true,
      if_true]
  · intro n
    rw [mem_orderByIdDesc]
    simp [List.mem_filter]
  · rw [(orderByIdDesc_perm _).length_eq]
    refine congrArg List.length (List.filter_congr (fun n _ => ?_))
    by_cases h1 : n.user_id = r <;> by_cases h2 : W < n.id <;> simp [h1, h2]
  · exact orderByIdDesc_strict (nodup_filter_ids hK _)

/-- Witness of C4: after Alice publishes twice, Bob fetches above watermark 1. -/
theorem getNotifications_delta_witness :
    ∃ rows : List Notification,
      getNotifications (postPosts (postPosts demoFollowed 1 "a").1 1 "b").1 2 (some 1) =
        ⟨200, .rows rows⟩ ∧
      (∀ n, n ∈ rows ↔ n ∈ (postPosts (postPosts demoFollowed 1 "a").1 1 "b").1.notifications ∧
        n.user_id = 2 ∧ 1 < n.id) ∧
      rows.length = ((postPosts (postPosts demoFollowed 1 "a").1 1 "b").1.notifications.filter
        (fun n => n.user_id = 2 ∧ 1 < n.id)).length ∧
      rows.Pairwise (fun a b => b.id < a.id) :=
  getNotifications_delta _ 2 1 (by decide) (by decide) (by decide)

/-- C5: a bootstrap fetch of recipient `r` (`sinceId` absent or 0) answers with
the `min 50 n` rows of largest id among the `n` rows of `r`: at most 50 rows,
all of them rows of `r` in the log, ordered by id strictly descending, and
every row of `r` left out has an id below every row returned. -/
theorem getNotifications_bootstrap (s : Store) (r : Nat) (sinceId : Option Nat)
    (hs : sinceId = none ∨ sinceId = some 0) (hr : r ≠ 0) (hK : NotifsKeyed s) :
    ∃ rows : List Notification,
      getNotifications s r sinceId = ⟨200, .rows rows⟩ ∧
      rows.length = min 50 (s.notifications.filter (fun n => n.user_id = r)).length ∧
      rows.length ≤ 50 ∧
      (∀ n ∈ rows, n ∈ s.notifications ∧ n.user_id = r) ∧
      rows.Pairwise (fun a b => b.id < a.id) ∧
      (∀ m ∈ s.notifications, m.user_id = r → m ∉ rows → ∀ n ∈ rows, m.id < n.id) := by
  have hstrict := orderByIdDesc_strict
    (nodup_filter_ids hK (fun n => n.user_id == r))
  have hlen : (orderByIdDesc (s.notifications.filter (fun n => n.user_id == r))).length =
      (s.notifications.filter (fun n => n.user_id = r)).length := by
    rw [(orderByIdDesc_perm _).length_eq]
    refine congrArg List.length (List.filter_congr (fun n _ => ?_))
    by_cases h1 : n.user_id = r <;> simp [h1]
  refine ⟨(orderByIdDesc (s.notifications.filter (fun n => n.user_id == r))).take 50,
    ?_, ?_, ?_, ?_, ?_, ?_⟩
  · rcases hs with rfl | rfl <;>
      simp only [getNotifications, hr, if_false, Option.getD_none, Option.getD_some, ne_eq,
        not_true_eq_false]
  · rw [List.length_take, hlen]
  · rw [List.length_take]; exact Nat.min_le_left _ _
  · intro n hn
    have := mem_orderByIdDesc.1 (List.mem_of_mem_take hn)
    simpa [List.mem_filter] using this
  · exact hstrict.sublist (List.take_sublist _ _)
  · intro m hm hmr hnot n hn
    have hmem : m ∈ orderByIdDesc (s.notifications.filter (fun n => n.user_id == r)) := by
      rw [mem_orderByIdDesc]; simp [List.mem_filter, hm, hmr]
    rw [← List.take_append_drop 50 (orderByIdDesc _), List.mem_append] at hmem
    rcases hmem with h | h
    · exact absurd h hnot
    · exact List.Sorted.rel_of_mem_take_of_mem_drop hstrict hn h

/-- Witness of C5: Bob's first fetch after Alice publishes twice. -/
theorem getNotifications_bootstrap_witness :
    ∃ rows : List Notification,
      getNotifications (postPosts (postPosts demoFollowed 1 "a").1 1 "b").1 2 none =
        ⟨200, .rows rows⟩ ∧
      rows.length = min 50 ((postPosts (postPosts demoFollowed 1 "a").1 1 "b").1.notifications.filter
        (fun n => n.user_id = 2)).length ∧
      rows.length ≤ 50 ∧
      (∀ n ∈ rows, n ∈ (postPosts (postPosts demoFollowed 1 "a").1 1 "b").1.notifications ∧
        n.user_id = 2) ∧
      rows.Pairwise (fun a b => b.id < a.id) ∧
      (∀ m ∈ (postPosts (postPosts demoFollowed 1 "a").1 1 "b").1.notifications,
        m.user_id = 2 → m ∉ rows → ∀ n ∈ rows, m.id < n.id) :=
  getNotifications_bootstrap _ 2 none (Or.inl rfl) (by decide) (by decide)

/-! ## The polling client -/

theorem postPosts_store (s : Store) (userId : Nat) (content : String) :
    (postPosts s userId content).1 = s ∨
    (postPosts s userId content).1 =
      (notifyFollowersOnPost
        { s with posts := s.posts ++ [⟨nextId (s.posts.map (·.id)), userId, content⟩] }
        ⟨nextId (s.posts.map (·.id)), userId, content⟩).1 := by
  unfold postPosts
  split
  · exact Or.inl rfl
  · refine Or.inr ?_
    dsimp only
    generalize notifyFollowersOnPost _ _ = r
    rcases r with ⟨s2, c⟩
    cases c <;> rfl

theorem postLikes_store (s : Store) (userId : JsId) (postId : Nat) :
    (postLikes s userId postId).1 = s ∨
    (postLikes s userId postId).1 =
      (notifyAuthorOnLike
        { s with likes := s.likes ++
          [⟨nextId (s.likes.map (·.id)), userId.toNat, postId⟩] }
        userId postId).1 := by
  unfold postLikes
  split
  · exact Or.inl rfl
  · split
    · exact Or.inl rfl
    · refine Or.inr ?_
      dsimp only
      generalize notifyAuthorOnLike _ _ _ = r
      rcases r with ⟨s2, c⟩
      cases c <;> rfl

theorem postComments_store (s : Store) (userId : JsId) (postId : Nat) (content : String) :
    (postComments s userId postId content).1 = s ∨
    (postComments s userId postId content).1 =
      (notifyAuthorOnComment
        { s with comments := s.comments ++
            [⟨nextId (s.comments.map (·.id)), userId.toNat, postId, content⟩] }
        userId postId content).1 := by
  unfold postComments
  split
  · exact Or.inl rfl
  · refine Or.inr ?_
    dsimp only
    generalize notifyAuthorOnComment _ _ _ _ = r
    rcases r with ⟨s2, c⟩
    cases c <;> rfl

theorem postDiscover_store (s : Store) (viewerId : JsId) (postId : Nat) :
    (postDiscover s viewerId postId).1 = s ∨
    (postDiscover s viewerId postId).1 = (notifyAuthorOnDiscovery s viewerId postId).1 := by
  unfold postDiscover
  split
  · exact Or.inl rfl
  · refine Or.inr ?_
    generalize notifyAuthorOnDiscovery _ _ _ = r
    rcases r with ⟨s2, c⟩
    cases c <;> rfl

theorem action_writes (a : Action) (s : Store) :
    ∃ ps : List NotificationParams,
      (a.run s).notifications =
        s.notifications ++ stamp (nextId (s.notifications.map (·.id))) ps := by
  have hnil : s.notifications = s.notifications ++ stamp (nextId (s.notifications.map (·.id))) [] := by
    simp [stamp]
  cases a with
  | createUser name =>
    refine ⟨[], ?_⟩
    simp only [Action.run, postUsers]
    split <;> exact hnil
  | follow followerId followedId =>
    refine ⟨[], ?_⟩
    simp only [Action.run, postFollow]
    split
    · exact hnil
    · split <;> exact hnil
  | publish userId content =>
    rcases postPosts_store s userId content with h | h
    · exact ⟨[], by simp only [Action.run, h]; exact hnil⟩
    · obtain ⟨ps, hps, -⟩ := notifyFollowersOnPost_writes
        { s with posts := s.posts ++ [⟨nextId (s.posts.map (·.id)), userId, content⟩] }
        ⟨nextId (s.posts.map (·.id)), userId, content⟩
      exact ⟨ps, by simp only [Action.run, h, hps]⟩
  | like userId postId =>
    rcases postLikes_store s userId postId with h | h
    · exact ⟨[], by simp only [Action.run, h]; exact hnil⟩
    · obtain ⟨ps, hps, -⟩ := notifyAuthorOnLike_writes
        { s with likes := s.likes ++
          [⟨nextId (s.likes.map (·.id)), userId.toNat, postId⟩] }
        userId postId
      exact ⟨ps, by simp only [Action.run, h, hps]⟩
  | comment userId postId content =>
    rcases postComments_store s userId postId content with h | h
    · exact ⟨[], by simp only [Action.run, h]; exact hnil⟩
    · obtain ⟨ps, hps, -⟩ := notifyAuthorOnComment_writes
        { s with comments := s.comments ++
            [⟨nextId (s.comments.map (·.id)), userId.toNat, postId, content⟩] }
        userId postId content
      exact ⟨ps, by simp only [Action.run, h, hps]⟩
  | discover viewerId postId =>
    rcases postDiscover_store s viewerId postId with h | h
    · exact ⟨[], by simp only [Action.run, h]; exact hnil⟩
    · obtain ⟨ps, hps, -⟩ := notifyAuthorOnDiscovery_writes s viewerId postId
      exact ⟨ps, by simp only [Action.run, h, hps]⟩

theorem poll_eq (s : Store) (c : Client) (h : c.selectedUser ≠ 0) :
    poll s c =
      if (answer s c).length ≠ 0 then
        { c with
          notifs := answer s c ++ c.notifs
          latestId := ((answer s c).map (·.id)).foldl max c.latestId }
      else c := by
  unfold poll getNotifications answer
  by_cases hl : c.latestId = 0 <;> simp [h, hl]

theorem foldl_max_spec (ids : List Nat) (W : Nat) :
    W ≤ ids.foldl max W ∧ (∀ i ∈ ids, i ≤ ids.foldl max W) ∧
      (ids.foldl max W = W ∨ ids.foldl max W ∈ ids) := by
  induction ids generalizing W with
  | nil => simp
  | cons a t ih =>
    obtain ⟨h1, h2, h3⟩ := ih (max W a)
    simp only [List.foldl_cons, List.mem_cons]
    refine ⟨by omega, ?_, ?_⟩
    · rintro i (rfl | hi)
      · omega
      · exact h2 i hi
    · rcases h3 with h3 | h3
      · rcases Nat.le_total W a with hWa | hWa
        · exact Or.inr (Or.inl (by rw [h3]; omega))
        · exact Or.inl (by rw [h3]; omega)
      · exact Or.inr (Or.inr h3)

theorem answer_mem {s : Store} {c : Client} {n : Notification}
    (hpos : ∀ n ∈ s.notifications, 0 < n.id) (h : n ∈ answer s c) :
    n ∈ s.notifications ∧ n.user_id = c.selectedUser ∧ c.latestId < n.id := by
  unfold answer at h
  split at h
  · rw [mem_orderByIdDesc] at h
    simpa [List.mem_filter, and_assoc] using h
  · rename_i hl
    have h1 := mem_orderByIdDesc.1 (List.mem_of_mem_take h)
    simp only [List.mem_filter, beq_iff_eq] at h1
    have := hpos n h1.1
    exact ⟨h1.1, h1.2, by omega⟩

theorem answer_desc {s : Store} (hK : NotifsKeyed s) (c : Client) :
    (answer s c).Pairwise (fun a b => b.id < a.id) := by
  unfold answer
  split
  · exact orderByIdDesc_strict (nodup_filter_ids hK _)
  · exact (orderByIdDesc_strict (nodup_filter_ids hK _)).sublist (List.take_sublist _ _)

theorem answer_complete {s : Store} (hK : NotifsKeyed s) {c : Client} {n : Notification}
    (hn : n ∈ s.notifications) (hu : n.user_id = c.selectedUser) (hW : c.latestId < n.id) :
    n ∈ answer s c ∨
      (c.latestId = 0 ∧ answer s c ≠ [] ∧ ∀ m ∈ answer s c, n.id < m.id) := by
  unfold answer
  split
  · left
    rw [mem_orderByIdDesc]
    simp [List.mem_filter, hn, hu, hW]
  · rename_i hl
    have hmem : n ∈ orderByIdDesc (s.notifications.filter (fun n => n.user_id == c.selectedUser)) := by
      rw [mem_orderByIdDesc]; simp [List.mem_filter, hn, hu]
    have hstrict := orderByIdDesc_strict
      (nodup_filter_ids hK (fun n => n.user_id == c.selectedUser))
    have hne : (orderByIdDesc (s.notifications.filter
        (fun n => n.user_id == c.selectedUser))).take 50 ≠ [] := by
      intro h0
      cases hl' : orderByIdDesc (s.notifications.filter (fun n => n.user_id == c.selectedUser)) with
      | nil => rw [hl'] at hmem; cases hmem
      | cons a t => rw [hl'] at h0; simp at h0
    have hsplit := hmem
    rw [← List.take_append_drop 50 (orderByIdDesc _), List.mem_append] at hsplit
    rcases hsplit with h | h
    · exact Or.inl h
    · exact Or.inr ⟨by omega, hne,
        fun m hm => List.Sorted.rel_of_mem_take_of_mem_drop hstrict hm h⟩

theorem inv_start {s : Store} {r : Nat} (hK : NotifsKeyed s)
    (hpos : ∀ n ∈ s.notifications, 0 < n.id) : Inv r (s, Client.start r) where
  user := rfl
  keyed := hK
  pos := hpos
  desc := List.Pairwise.nil
  held := fun n hn => by cases hn
  full := fun n _ _ _ h => by obtain ⟨m, hm, -⟩ := h; cases hm
  top := Or.inl rfl

theorem inv_act {r : Nat} {w : Store × Client} (h : Inv r w) (a : Action) :
    Inv r (step w (.act a)) := by
  obtain ⟨ps, hps⟩ := action_writes a w.1
  have hbase : ∀ m ∈ w.1.notifications, m.id < nextId (w.1.notifications.map (·.id)) :=
    fun m hm => lt_nextId (List.mem_map_of_mem (·.id) hm)
  refine ⟨h.user, ?_, ?_, h.desc, ?_, ?_, h.top⟩
  · show ((a.run w.1).notifications.map (·.id)).Nodup
    rw [hps, List.map_append, map_id_stamp]
    refine List.Nodup.append h.keyed (List.nodup_range' _ _) ?_
    intro i hi hi'
    obtain ⟨m, hm, rfl⟩ := List.mem_map.1 hi
    have h1 := hbase m hm
    have h2 := (List.mem_range'_1.1 hi').1
    omega
  · intro n hn
    change n ∈ (a.run w.1).notifications at hn
    rw [hps, List.mem_append] at hn
    rcases hn with hn | hn
    · exact h.pos n hn
    · have := (mem_stamp hn).2.1
      have := nextId_pos (w.1.notifications.map (·.id))
      omega
  · intro n hn
    obtain ⟨h1, h2⟩ := h.held n hn
    refine ⟨?_, h2⟩
    show n ∈ (a.run w.1).notifications
    rw [hps]
    exact List.mem_append_left _ h1
  · intro n hn hu hle hex
    change n ∈ (a.run w.1).notifications at hn
    change n.id ≤ w.2.latestId at hle
    rw [hps, List.mem_append] at hn
    rcases hn with hn | hn
    · exact h.full n hn hu hle hex
    · exfalso
      have h1 := (mem_stamp hn).2.1
      have h0 := nextId_pos (w.1.notifications.map (·.id))
      rcases h.top with ht | ⟨m, hm, ht⟩
      · omega
      · have := hbase m (h.held m hm).1
        omega

theorem inv_poll {r : Nat} (hr : r ≠ 0) {w : Store × Client} (h : Inv r w) :
    Inv r (step w .poll) := by
  have hsel : w.2.selectedUser ≠ 0 := by rw [h.user]; exact hr
  show Inv r (w.1, poll w.1 w.2)
  rw [poll_eq _ _ hsel]
  split
  · obtain ⟨hW1, hW2, hW3⟩ := foldl_max_spec ((answer w.1 w.2).map (·.id)) w.2.latestId
    have hA : ∀ n ∈ answer w.1 w.2,
        n ∈ w.1.notifications ∧ n.user_id = r ∧ w.2.latestId < n.id := by
      intro n hn
      have := answer_mem h.pos hn
      rw [h.user] at this
      exact this
    refine ⟨h.user, h.keyed, h.pos, ?_, ?_, ?_, ?_⟩
    · show (answer w.1 w.2 ++ w.2.notifs).Pairwise _
      rw [List.pairwise_append]
      refine ⟨answer_desc h.keyed _, h.desc, fun a ha b hb => ?_⟩
      have h1 := (hA a ha).2.2
      have h2 := (h.held b hb).2.2
      omega
    · intro n hn
      change n ∈ answer w.1 w.2 ++ w.2.notifs at hn
      show _ ∧ _ ∧ n.id ≤ ((answer w.1 w.2).map (·.id)).foldl max w.2.latestId
      rcases List.mem_append.1 hn with hn | hn
      · exact ⟨(hA n hn).1, (hA n hn).2.1, hW2 _ (List.mem_map_of_mem (·.id) hn)⟩
      · obtain ⟨h1, h2, h3⟩ := h.held n hn
        exact ⟨h1, h2, Nat.le_trans h3 hW1⟩
    · intro n hn hu hle hex
      change n ∈ w.1.notifications at hn
      show n ∈ answer w.1 w.2 ++ w.2.notifs
      obtain ⟨m, hm, hmn⟩ := hex
      change m ∈ answer w.1 w.2 ++ w.2.notifs at hm
      rw [List.mem_append] at hm ⊢
      by_cases hlt : w.2.latestId < n.id
      · rcases answer_complete h.keyed hn (hu.trans h.user.symm) hlt with hc | ⟨h0, -, hc⟩
        · exact Or.inl hc
        · exfalso
          rcases hm with hm | hm
          · have := hc m hm
            omega
          · obtain ⟨h1, -, h3⟩ := h.held m hm
            have := h.pos m h1
            omega
      · rcases hm with hm | hm
        · exfalso
          have := (hA m hm).2.2
          omega
        · exact Or.inr (h.full n hn hu (by omega) ⟨m, hm, hmn⟩)
    · show ((answer w.1 w.2).map (·.id)).foldl max w.2.latestId = 0 ∨
        ∃ m ∈ answer w.1 w.2 ++ w.2.notifs,
          m.id = ((answer w.1 w.2).map (·.id)).foldl max w.2.latestId
      rcases hW3 with hW3 | hW3
      · rcases h.top with ht | ⟨m, hm, ht⟩
        · exact Or.inl (hW3.trans ht)
        · exact Or.inr ⟨m, List.mem_append_right _ hm, ht.trans hW3.symm⟩
      · obtain ⟨m, hm, hmid⟩ := List.mem_map.1 hW3
        exact Or.inr ⟨m, List.mem_append_left _ hm, hmid⟩
  · exact h

theorem inv_step {r : Nat} (hr : r ≠ 0) {w : Store × Client} (h : Inv r w) (e : Event) :
    Inv r (step w e) := by
  cases e with
  | poll => exact inv_poll hr h
  | act a => exact inv_act h a

theorem inv_run {r : Nat} (hr : r ≠ 0) (es : List Event) {w : Store × Client} (h : Inv r w) :
    Inv r (run w es) := by
  induction es generalizing w with
  | nil => exact h
  | cons e es ih => exact ih (inv_step hr h e)

theorem le_poll_latestId (s : Store) (c : Client) : c.latestId ≤ (poll s c).latestId := by
  by_cases hsel : c.selectedUser = 0
  · have : poll s c = c := by simp [poll, getNotifications, hsel]
    rw [this]
  · rw [poll_eq _ _ hsel]
    split
    · exact (foldl_max_spec _ _).1
    · exact Nat.le_refl _

theorem le_run_latestId (es : List Event) (w : Store × Client) :
    w.2.latestId ≤ (run w es).2.latestId := by
  induction es generalizing w with
  | nil => exact Nat.le_refl _
  | cons e es ih =>
    refine Nat.le_trans ?_ (ih (step w e))
    cases e with
    | poll => exact le_poll_latestId _ _
    | act a => exact Nat.le_refl _

theorem run_append (w : Store × Client) (es es' : List Event) :
    run w (es ++ es') = run (run w es) es' :=
  List.foldl_append _ _ _ _

theorem run_acts_client (acts : List Action) (w : Store × Client) :
    (run w (acts.map .act)).2 = w.2 := by
  induction acts generalizing w with
  | nil => rfl
  | cons a acts ih => exact ih (step w (.act a))

theorem poll_fresh {r : Nat} (hr : r ≠ 0) {w : Store × Client} (h : Inv r w)
    {n : Notification} (hn : n ∈ w.1.notifications) (hu : n.user_id = r) :
    n.id ≤ (poll w.1 w.2).latestId := by
  have hsel : w.2.selectedUser ≠ 0 := by rw [h.user]; exact hr
  by_cases hlt : w.2.latestId < n.id
  · obtain ⟨-, hW2, -⟩ := foldl_max_spec ((answer w.1 w.2).map (·.id)) w.2.latestId
    have hcases := answer_complete h.keyed hn (hu.trans h.user.symm) hlt
    rw [poll_eq _ _ hsel]
    split
    · show n.id ≤ ((answer w.1 w.2).map (·.id)).foldl max w.2.latestId
      rcases hcases with hc | ⟨-, hne, hc⟩
      · exact hW2 _ (List.mem_map_of_mem (·.id) hc)
      · obtain ⟨m, hm⟩ := List.exists_mem_of_ne_nil _ hne
        have h1 := hc m hm
        have h2 := hW2 _ (List.mem_map_of_mem (·.id) hm)
        omega
    · rename_i hlen
      exfalso
      have hnil : answer w.1 w.2 = [] := by
        apply List.eq_nil_of_length_eq_zero
        omega
      rcases hcases with hc | ⟨-, hne, -⟩
      · rw [hnil] at hc; cases hc
      · exact hne hnil
  · exact Nat.le_trans (by omega) (le_poll_latestId _ _)

/-- C10: a client of `App.jsx` fixed on recipient `r` starts with watermark 0
and an empty list on a store whose notification ids are distinct and positive.
After any sequence of polls and store-changing requests, its list is strictly
descending by id, has no duplicate, and holds exactly the rows of `r` in the
log whose id lies between the smallest id it holds and its watermark; the
watermark never decreases afterwards; and after a poll, a further poll made
when the rows of `r` in the log are still the same adds nothing. -/
theorem client_view_gap_free (s : Store) (r : Nat) (es : List Event) (hr : r ≠ 0)
    (hK : NotifsKeyed s) (hpos : ∀ n ∈ s.notifications, 0 < n.id) :
    (run (s, Client.start r) es).2.notifs.Pairwise (fun a b => b.id < a.id) ∧
    (run (s, Client.start r) es).2.notifs.Nodup ∧
    (∀ n, n ∈ (run (s, Client.start r) es).2.notifs ↔
      n ∈ (run (s, Client.start r) es).1.notifications ∧ n.user_id = r ∧
      n.id ≤ (run (s, Client.start r) es).2.latestId ∧
      ∃ m ∈ (run (s, Client.start r) es).2.notifs, m.id ≤ n.id) ∧
    (∀ es' : List Event,
      (run (s, Client.start r) es).2.latestId ≤ (run (s, Client.start r) (es ++ es')).2.latestId) ∧
    (∀ acts : List Action,
      (run (s, Client.start r) (es ++ (.poll :: acts.map .act))).1.notifications.filter
          (fun n => n.user_id = r) =
        (run (s, Client.start r) (es ++ [.poll])).1.notifications.filter
          (fun n => n.user_id = r) →
      (run (s, Client.start r) (es ++ (.poll :: acts.map .act) ++ [.poll])).2 =
        (run (s, Client.start r) (es ++ (.poll :: acts.map .act))).2) := by
  have hI := inv_run hr es (inv_start (r := r) hK hpos)
  refine ⟨hI.desc, ?_, ?_, ?_, ?_⟩
  · refine hI.desc.imp_of_mem (fun _ _ hab heq => ?_)
    rw [heq] at hab
    exact Nat.lt_irrefl _ hab
  · intro n
    constructor
    · intro hn
      obtain ⟨h1, h2, h3⟩ := hI.held n hn
      exact ⟨h1, h2, h3, n, hn, Nat.le_refl _⟩
    · rintro ⟨h1, h2, h3, h4⟩
      exact hI.full n h1 h2 h3 h4
  · intro es'
    rw [run_append]
    exact le_run_latestId _ _
  · intro acts hsame
    have e1 : run (s, Client.start r) (es ++ [.poll]) = step (run (s, Client.start r) es) .poll := by
      rw [run_append]; rfl
    have e2 : run (s, Client.start r) (es ++ (.poll :: acts.map .act)) =
        run (step (run (s, Client.start r) es) .poll) (acts.map .act) := by
      rw [run_append]; rfl
    have e3 : run (s, Client.start r) (es ++ (.poll :: acts.map .act) ++ [.poll]) =
        step (run (step (run (s, Client.start r) es) .poll) (acts.map .act)) .poll := by
      rw [run_append, e2]; rfl
    rw [e3, e2]
    rw [e2, e1] at hsame
    generalize run (s, Client.start r) es = w at hI hsame ⊢
    have hI2 := inv_run hr (acts.map .act) (inv_poll hr hI)
    have hc : (run (step w .poll) (acts.map .act)).2 = poll w.1 w.2 := run_acts_client acts _
    generalize run (step w .poll) (acts.map .act) = w2 at hI2 hsame hc ⊢
    have hsel : w2.2.selectedUser ≠ 0 := by rw [hI2.user]; exact hr
    show poll w2.1 w2.2 = w2.2
    have hnil : answer w2.1 w2.2 = [] := by
      rw [List.eq_nil_iff_forall_not_mem]
      intro n hn
      obtain ⟨h1, h2, h3⟩ := answer_mem hI2.pos hn
      rw [hI2.user] at h2
      have hmem : n ∈ w2.1.notifications.filter (fun n => n.user_id = r) := by
        simp [List.mem_filter, h1, h2]
      rw [hsame] at hmem
      have h4 : n ∈ w.1.notifications := (List.mem_filter.1 hmem).1
      have h5 := poll_fresh hr hI h4 h2
      rw [hc] at h3
      omega
    rw [poll_eq _ _ hsel, hnil]
    simp


/-- Witness of C10: Bob's client across two posts of Alice, whom Bob and Cara
follow; it ends up holding the rows 3 and 1, with watermark 3. -/
theorem client_view_gap_free_witness :
    ((run (demoFollowed, Client.start 2) demoEvents).2.notifs.Pairwise (fun a b => b.id < a.id) ∧
      (run (demoFollowed, Client.start 2) demoEvents).2.notifs.Nodup ∧
      (∀ n, n ∈ (run (demoFollowed, Client.start 2) demoEvents).2.notifs ↔
        n ∈ (run (demoFollowed, Client.start 2) demoEvents).1.notifications ∧ n.user_id = 2 ∧
        n.id ≤ (run (demoFollowed, Client.start 2) demoEvents).2.latestId ∧
        ∃ m ∈ (run (demoFollowed, Client.start 2) demoEvents).2.notifs, m.id ≤ n.id)) ∧
    (run (demoFollowed, Client.start 2) demoEvents).2.notifs.map (·.id) = [3, 1] ∧
    (run (demoFollowed, Client.start 2) demoEvents).2.latestId = 3 :=
  ⟨⟨(client_view_gap_free demoFollowed 2 demoEvents (by decide) (by decide) (by decide)).1,
      (client_view_gap_free demoFollowed 2 demoEvents (by decide) (by decide) (by decide)).2.1,
      (client_view_gap_free demoFollowed 2 demoEvents (by decide) (by decide) (by decide)).2.2.1⟩,
    by decide, by decide⟩


/-! ## The schema constraints hold in every reachable store -/

theorem followsUnique_postFollow {s : Store} (h : FollowsUnique s) (x y : Nat) :
    FollowsUnique (postFollow s x y).1 := by
  unfold postFollow
  split
  · exact h
  · split
    · exact h
    · rename_i hany
      show List.Pairwise _ (s.follows ++ [_])
      rw [List.pairwise_append]
      refine ⟨h, List.pairwise_singleton _ _, ?_⟩
      intro f hf g hg hfg
      rw [List.mem_singleton] at hg
      subst hg
      apply hany
      rw [List.any_eq_true]
      exact ⟨f, hf, by simp [hfg.1, hfg.2]⟩

theorem nodup_append_nextId {ids : List Nat} (h : ids.Nodup) : (ids ++ [nextId ids]).Nodup := by
  refine List.Nodup.append h (List.nodup_singleton _) ?_
  intro i hi hi'
  rw [List.mem_singleton] at hi'
  have := lt_nextId hi
  omega

theorem wellFormed_of_tables {s : Store} (s1 : Store) (ps : List NotificationParams)
    (h : WellFormed s) (hf : FollowsUnique s1) (hp : PostsKeyed s1)
    (hn : s1.notifications = s.notifications) :
    WellFormed { s1 with notifications :=
      s1.notifications ++ stamp (nextId (s1.notifications.map (·.id))) ps } := by
  obtain ⟨-, -, hK, hpos⟩ := h
  rw [hn]
  refine ⟨hf, hp, ?_, ?_⟩
  · show ((s.notifications ++ stamp _ ps).map (·.id)).Nodup
    rw [List.map_append, map_id_stamp]
    refine List.Nodup.append hK (List.nodup_range' _ _) ?_
    intro i hi hi'
    have h1 := lt_nextId hi
    have h2 := (List.mem_range'_1.1 hi').1
    omega
  · intro n hn'
    change n ∈ s.notifications ++ stamp _ ps at hn'
    rcases List.mem_append.1 hn' with hn' | hn'
    · exact hpos n hn'
    · have := (mem_stamp hn').2.1
      have := nextId_pos (s.notifications.map (·.id))
      omega

theorem wellFormed_same {s s1 : Store} (h : WellFormed s) (hf : FollowsUnique s1)
    (hp : PostsKeyed s1) (hn : s1.notifications = s.notifications) : WellFormed s1 := by
  have := wellFormed_of_tables s1 [] h hf hp hn
  rwa [with_notifications_append_nil] at this

theorem wellFormed_init : WellFormed init :=
  ⟨by decide, by decide, by decide, by decide⟩

theorem wellFormed_act {s : Store} (h : WellFormed s) (a : Action) : WellFormed (a.run s) := by
  cases a with
  | createUser name =>
    refine wellFormed_same h ?_ ?_ ?_ <;>
      (simp only [Action.run, postUsers]; split)
    exacts [h.1, h.1, h.2.1, h.2.1, rfl, rfl]
  | follow x y =>
    refine wellFormed_same h (followsUnique_postFollow h.1 x y) ?_ ?_ <;>
      (simp only [Action.run, postFollow]; split)
    · exact h.2.1
    · split <;> exact h.2.1
    · rfl
    · split <;> rfl
  | publish userId content =>
    rcases postPosts_store s userId content with e | e
    · simp only [Action.run, e]; exact h
    · obtain ⟨ps, hps, -⟩ := notifyFollowersOnPost_writes
        { s with posts := s.posts ++ [⟨nextId (s.posts.map (·.id)), userId, content⟩] }
        ⟨nextId (s.posts.map (·.id)), userId, content⟩
      simp only [Action.run, e, hps]
      refine wellFormed_of_tables
        { s with posts := s.posts ++ [⟨nextId (s.posts.map (·.id)), userId, content⟩] } ps
        h h.1 ?_ rfl
      show ((s.posts ++ [(⟨nextId (s.posts.map (·.id)), userId, content⟩ : Post)]).map
        (·.id)).Nodup
      rw [List.map_append]
      exact nodup_append_nextId h.2.1
  | like userId postId =>
    rcases postLikes_store s userId postId with e | e
    · simp only [Action.run, e]; exact h
    · obtain ⟨ps, hps, -⟩ := notifyAuthorOnLike_writes
        { s with likes := s.likes ++
          [⟨nextId (s.likes.map (·.id)), userId.toNat, postId⟩] }
        userId postId
      simp only [Action.run, e, hps]
      exact wellFormed_of_tables
        { s with likes := s.likes ++
          [⟨nextId (s.likes.map (·.id)), userId.toNat, postId⟩] } ps
        h h.1 h.2.1 rfl
  | comment userId postId content =>
    rcases postComments_store s userId postId content with e | e
    · simp only [Action.run, e]; exact h
    · obtain ⟨ps, hps, -⟩ := notifyAuthorOnComment_writes
        { s with comments := s.comments ++
            [⟨nextId (s.comments.map (·.id)), userId.toNat, postId, content⟩] }
        userId postId content
      simp only [Action.run, e, hps]
      exact wellFormed_of_tables
        { s with comments := s.comments ++
            [⟨nextId (s.comments.map (·.id)), userId.toNat, postId, content⟩] } ps
        h h.1 h.2.1 rfl
  | discover viewerId postId =>
    rcases postDiscover_store s viewerId postId with e | e
    · simp only [Action.run, e]; exact h
    · obtain ⟨ps, hps, -⟩ := notifyAuthorOnDiscovery_writes s viewerId postId
      simp only [Action.run, e, hps]
      exact wellFormed_of_tables s ps h h.1 h.2.1 rfl

theorem wellFormed_markRead {s : Store} (h : WellFormed s) (r : Nat) (ids : List Nat) :
    WellFormed (postNotificationsRead s r ids).1 := by
  unfold postNotificationsRead
  split
  · exact h
  · have hid : (s.notifications.map (markedRow r ids)).map (·.id) = s.notifications.map (·.id) := by
      rw [List.map_map]; rfl
    refine ⟨h.1, h.2.1, ?_, ?_⟩
    · show ((ids.foldl (fun l id => mark l r id) s.notifications).map (·.id)).Nodup
      rw [foldl_mark, hid]
      exact h.2.2.1
    · intro n hn
      change n ∈ ids.foldl (fun l id => mark l r id) s.notifications at hn
      rw [foldl_mark] at hn
      obtain ⟨m, hm, rfl⟩ := List.mem_map.1 hn
      exact h.2.2.2 m hm

/-- Every store reached from the seeded database by requests satisfies the
schema constraints. -/
theorem wellFormed_reachable (acts : List Action) :
    WellFormed (acts.foldl (fun s a => a.run s) init) := by
  suffices ∀ s, WellFormed s → WellFormed (acts.foldl (fun s a => a.run s) s) from
    this init wellFormed_init
  induction acts with
  | nil => exact fun s h => h
  | cons a acts ih => exact fun s h => ih _ (wellFormed_act h a)

end Insyd
